import Mathlib

/-!
openai-proxy: a verification development of `main.go`

A shallow embedding of the request pipeline of the proxy (`handleRequest`
and its helpers `isAuthHeaderAkSk`, `genJWT`, the alias table `pathMap`)
together with theorems about it.

Modelling conventions.

* A Go `string` is a Lean `String`.  Every delimiter the program looks for
  (`"Bearer "`, `"|"`) is ASCII, so slicing by bytes and slicing by
  characters agree wherever the program slices.
* Library calls (`strings.*`, `time.*`, `jwt.*`, `http.*`) are modelled by
  small definitions that follow their documented behaviour, or are taken
  from an explicit environment `Env` when their result is outside the
  program's control (the clock, the signer, the network).
* Effects are recorded as a trace of `Event`s in program order.
-/

set_option autoImplicit false

namespace OpenaiProxy

/-! ## `strings` helpers -/

/-- Go `strings.HasPrefix(s, p)`: `len(s) >= len(p) && s[:len(p)] == p`. -/
def HasPrefix (s p : String) : Bool :=
  decide (p.data.length ≤ s.data.length) && (s.data.take p.data.length == p.data)

/-- Go slice expression `s[n:]`. -/
def sliceFrom (s : String) (n : Nat) : String :=
  ⟨s.data.drop n⟩

/-- Go `strings.Contains(s, sep)` for a one-character separator `sep`. -/
def Contains (s : String) (sep : Char) : Bool :=
  s.data.contains sep

/-- Worker of `Split` on character lists: `cur` is the segment being read. -/
def splitAux (sep : Char) : List Char → List Char → List String
  | [], cur => [⟨cur.reverse⟩]
  | c :: cs, cur =>
    if c = sep then ⟨cur.reverse⟩ :: splitAux sep cs []
    else splitAux sep cs (c :: cur)

/-- Go `strings.Split(s, sep)` for a one-character separator `sep`: the
segments of `s` between consecutive occurrences of `sep`. -/
def Split (s : String) (sep : Char) : List String :=
  splitAux sep s.data []

/-! ## Credential detection (`main.go` lines 42-52) -/

/-- Embedding of `isAuthHeaderAkSk`. -/
def isAuthHeaderAkSk (value : String) : Bool :=
  if !HasPrefix value "Bearer " then
    false
  else
    let major := sliceFrom value 7
    if !Contains major '|' then
      false
    else
      let akSk := Split major '|'
      akSk.length == 2

/-! ## The clock (`time`) -/

/-- A `time.Time`, as nanoseconds since the Unix epoch. -/
abbrev Time := Int

/-- A `time.Duration`, in nanoseconds. -/
abbrev Duration := Int

/-- Go `time.Second`. -/
def Second : Duration := 1000000000

/-- Go `t.Add(d)`. -/
def Time.Add (t : Time) (d : Duration) : Time := t + d

/-- Go `t.Unix()`: whole seconds since the epoch, rounded down. -/
def Time.Unix (t : Time) : Int := t / 1000000000

/-! ## Tokens (`jwt`) -/

/-- The signing methods of `golang-jwt` the development distinguishes. -/
inductive SigningMethod where
  | HS256
  | HS384
  | HS512
  | RS256
  | ES256
  deriving DecidableEq, Repr

/-- A value stored in a `jwt.MapClaims`. -/
inductive ClaimValue where
  | str (s : String)
  | num (n : Int)
  deriving DecidableEq, Repr

/-- Go `jwt.MapClaims`, as the list of its entries. -/
abbrev MapClaims := List (String × ClaimValue)

/-- Go `jwt.Token`, restricted to what `jwt.NewWithClaims` sets. -/
structure Token where
  Method : SigningMethod
  Claims : MapClaims
  deriving DecidableEq, Repr

/-- Go `jwt.NewWithClaims`. -/
def NewWithClaims (method : SigningMethod) (claims : MapClaims) : Token :=
  ⟨method, claims⟩

/-- Go conversion `[]byte(s)`: the UTF-8 bytes of `s`. -/
def bytesOf (s : String) : List UInt8 :=
  (s.data.map String.utf8EncodeChar).flatten

/-! ## Requests, responses, environment -/

/-- A Go `error` value as the relay loop sees it: the sentinel `io.EOF` or
any other error, with its `Error()` text. -/
inductive Error where
  | EOF
  | other (msg : String)
  deriving DecidableEq, Repr

/-- Go `err.Error()`. -/
def Error.text : Error → String
  | .EOF => "EOF"
  | .other msg => msg

/-- A header multimap (`http.Header`), as its entries in the order a `range`
over it visits them; each key carries its ordered value list. -/
abbrev Header := List (String × List String)

/-- The inbound `*http.Request`, restricted to what `handleRequest` reads. -/
structure Request where
  Method : String
  Path : String
  RawQuery : String
  Header : Header
  Body : List UInt8
  deriving DecidableEq, Repr

/-- The outbound request built by `http.NewRequest` and filled by
`proxyReq.Header.Add`: `Header` is the sequence of `Add(key, value)` calls. -/
structure ProxyRequest where
  Method : String
  URL : String
  Body : List UInt8
  Header : List (String × String)
  deriving DecidableEq, Repr

/-- One call of `resp.Body.Read(buf)`: `data` is the bytes the reader reports
having read (so the count returned is `n = data.length`) and `err` the error
returned (`none` for `nil`).  A reader that honours its contract reports at
most `len(buf)` bytes, and `data` is then `buf[:n]` after the call. -/
structure ReadResult where
  data : List UInt8
  err : Option Error
  deriving DecidableEq, Repr

/-- The upstream `*http.Response`: `Body` is the sequence of results its
reader returns to successive `Read` calls; once the sequence is used up the
reader returns `(0, io.EOF)`. -/
structure Response where
  StatusCode : Nat
  Header : Header
  Body : List ReadResult
  deriving DecidableEq, Repr

/-- Everything outside the program's control. -/
structure Env where
  /-- The configured default origin (the global `target`). -/
  target : String
  /-- The reading returned by the `k`-th call of `time.Now()`. -/
  Now : Nat → Time
  /-- Go `token.SignedString(key)`. -/
  SignedString : Token → List UInt8 → Except String String
  /-- The error text of `url.Parse(r.URL.String())`, if it fails. -/
  ParseURL : Request → Option String
  /-- The error text of `http.NewRequest(method, url, body)`, if it fails. -/
  NewRequest : String → String → Option String
  /-- Go `client.Do(proxyReq)`. -/
  Do : ProxyRequest → Except String Response
  /-- The error of the `k`-th call of `w.Write` in the relay loop, if any. -/
  Write : Nat → List UInt8 → Option Error

/-- The observable effects of `handleRequest`, in program order. -/
inductive Event where
  /-- `log.Println(args...)`. -/
  | log (args : List String)
  /-- `http.Error(w, msg, code)`: sets the error headers, calls
  `w.WriteHeader(code)` and writes `msg` and a newline to `w`
  (`fmt.Fprintln(w, msg)`); it does not flush. -/
  | httpError (msg : String) (code : Nat)
  /-- `client.Do(proxyReq)`. -/
  | dispatch (req : ProxyRequest)
  /-- `w.Header().Add(key, value)`. -/
  | addHeader (key value : String)
  /-- `w.WriteHeader(code)`. -/
  | writeHeader (code : Nat)
  /-- `resp.Body.Read(buf)` returning `(n, err)`. -/
  | read (n : Nat) (err : Option Error)
  /-- `w.Write(chunk)` returning `err`. -/
  | write (chunk : List UInt8) (err : Option Error)
  /-- `w.(http.Flusher).Flush()`. -/
  | flush
  /-- The deferred `resp.Body.Close()`. -/
  | close
  /-- A run-time panic (index or slice bounds out of range). -/
  | runtimePanic (msg : String)
  deriving DecidableEq, Repr

/-- Go `http.StatusInternalServerError`. -/
def StatusInternalServerError : Nat := 500

/-- Go `http.StatusText`, on the one code the program passes. -/
def StatusText (code : Nat) : String :=
  if code = 500 then "Internal Server Error" else ""

/-- Go `h.Get(key)` for a canonical `key`: the first value under `key`, or
`""` when the key is absent or has no value. -/
def Header.Get (h : Header) (key : String) : String :=
  match h.lookup key with
  | some (v :: _) => v
  | _ => ""

/-! ## Token minting (`main.go` lines 54-62) -/

/-- The token `genJWT` builds (lines 55-59) when the clock has been read
`tick` times before: the `exp` entry reads the clock first, the `nbf` entry
second. -/
def genJWTToken (E : Env) (ak : String) (tick : Nat) : Token :=
  NewWithClaims SigningMethod.HS256
    [("iss", ClaimValue.str ak),
     ("exp", ClaimValue.num ((E.Now tick).Add (Second * 120)).Unix),
     ("nbf", ClaimValue.num ((E.Now (tick + 1)).Add (-Second * 5)).Unix)]

/-- Embedding of `genJWT`: the signed token or the signing error, and the
number of clock readings taken so far. -/
def genJWT (E : Env) (ak sk : String) (tick : Nat) : Except String String × Nat :=
  (E.SignedString (genJWTToken E ak tick) (bytesOf sk), tick + 2)

/-! ## Target resolution (`main.go` lines 21-24, 75-92) -/

/-- The alias table `pathMap`. -/
def pathMap : List (String × String) :=
  [("/v1/api/chat/completions", "/v1/llm/chat-completions"),
   ("/v1/api/models", "/v1/llm/models")]

/-- Lines 75-79: `newPath` after the alias lookup. -/
def resolvePath (path : String) : String :=
  match pathMap.lookup path with
  | some mapped => mapped
  | none => path

/-- Lines 84-92: `targetURL` for default origin `target`. -/
def targetURL (target : String) (r : Request) : String :=
  let newPath := resolvePath r.Path
  let url :=
    if r.Header.Get "X-Target-Host" ≠ "" then
      "https://" ++ r.Header.Get "X-Target-Host" ++ newPath
    else
      target ++ newPath
  if r.RawQuery ≠ "" then url ++ ("?" ++ r.RawQuery) else url

/-! ## Header transformation (`main.go` lines 104-117) -/

/-- Why the header loop stopped early. -/
inductive HeaderFailure where
  /-- `genJWT` returned this error. -/
  | jwt (msg : String)
  /-- `akSk[0]` or `akSk[1]` was out of range. -/
  | indexOutOfRange
  deriving DecidableEq, Repr

/-- Lines 105-116: the inner loop over the values of `headerKey`, appending
to the `Add` calls `out` made so far; `tick` counts clock readings. -/
def valuesLoop (E : Env) (headerKey : String) :
    List String → List (String × String) → Nat →
      Except HeaderFailure (List (String × String) × Nat)
  | [], out, tick => .ok (out, tick)
  | headerValue :: rest, out, tick =>
    if headerKey = "Authorization" ∧ isAuthHeaderAkSk headerValue = true then
      let akSk := Split (sliceFrom headerValue 7) '|'
      match akSk.get? 0, akSk.get? 1 with
      | some ak, some sk =>
        match genJWT E ak sk tick with
        | (.ok token, tick') =>
          valuesLoop E headerKey rest (out ++ [(headerKey, token)]) tick'
        | (.error err, _) => .error (.jwt err)
      | _, _ => .error .indexOutOfRange
    else
      valuesLoop E headerKey rest (out ++ [(headerKey, headerValue)]) tick

/-- Lines 104-117: the loop over the header keys. -/
def headerLoop (E : Env) :
    Header → List (String × String) → Nat →
      Except HeaderFailure (List (String × String) × Nat)
  | [], out, tick => .ok (out, tick)
  | (headerKey, headerValues) :: rest, out, tick =>
    match valuesLoop E headerKey headerValues out tick with
    | .ok (out', tick') => headerLoop E rest out' tick'
    | .error f => .error f

/-! ## Response relay (`main.go` lines 142-169) -/

/-- The length of the relay buffer `buf` (line 153). -/
def relayBufSize : Nat := 1024

/-- Lines 143-147: the response headers copied to the caller. -/
def copyResponseHeader (h : Header) : List Event :=
  (h.map (fun kv => kv.2.map (fun value => Event.addHeader kv.1 value))).flatten

/-- Lines 154-169: the relay loop over the results of successive reads into
the buffer `buf` of `relayBufSize` bytes; `k` counts the writes made so far.
The slice expression `buf[:n]` of line 162 panics when the count `n` exceeds
the buffer. -/
def relayLoop (E : Env) : List ReadResult → Nat → List Event
  | [], _ => [Event.read 0 (some Error.EOF)]
  | r :: rest, k =>
    Event.read r.data.length r.err ::
      if r.err = some Error.EOF ∨ r.data.length = 0 then
        []
      else
        match r.err with
        | some err =>
          [Event.log ["error while reading respbody: ", err.text],
           Event.httpError err.text StatusInternalServerError]
        | none =>
          if relayBufSize < r.data.length then
            [Event.runtimePanic "slice bounds out of range"]
          else
            match E.Write k r.data with
            | some err =>
              [Event.write r.data (some err),
               Event.log ["error while writing resp: ", err.text],
               Event.httpError err.text StatusInternalServerError]
            | none =>
              Event.write r.data none :: Event.flush :: relayLoop E rest (k + 1)

/-! ## The handler (`main.go` lines 64-170) -/

/-- Embedding of `handleRequest`: the trace of its effects. -/
def handleRequest (E : Env) (r : Request) : List Event :=
  match E.ParseURL r with
  | some err =>
    [Event.log ["Error parsing URL: ", err],
     Event.httpError (StatusText StatusInternalServerError) StatusInternalServerError]
  | none =>
    Event.log ["origin path", r.Path] ::
    Event.log ["Proxying request to: ", targetURL E.target r] ::
    match E.NewRequest r.Method (targetURL E.target r) with
    | some err =>
      [Event.log ["Error creating proxy request: ", err],
       Event.httpError "Error creating proxy request" StatusInternalServerError]
    | none =>
      match headerLoop E r.Header [] 0 with
      | .error (.jwt err) =>
        [Event.log ["Error generating JWT: ", err],
         Event.httpError "Error generating JWT" StatusInternalServerError]
      | .error .indexOutOfRange => [Event.runtimePanic "index out of range"]
      | .ok (header, _) =>
        let proxyReq : ProxyRequest := ⟨r.Method, targetURL E.target r, r.Body, header⟩
        Event.dispatch proxyReq ::
        match E.Do proxyReq with
        | .error err =>
          [Event.log ["Error sending proxy request: ", err],
           Event.httpError err StatusInternalServerError]
        | .ok resp =>
          copyResponseHeader resp.Header ++
            Event.writeHeader resp.StatusCode :: (relayLoop E resp.Body 0 ++ [Event.close])

/-! ## Trace observations -/

/-- The chunks passed to `w.Write` calls that succeeded, concatenated: the
body bytes delivered to the caller. -/
def bytesWritten : List Event → List UInt8
  | [] => []
  | Event.write chunk none :: rest => chunk ++ bytesWritten rest
  | _ :: rest => bytesWritten rest

/-- The bytes an event writes to the body of the caller's response, if it
writes any: `w.Write(chunk)` writes `chunk`, and `http.Error(w, msg, code)`
writes `msg` followed by a newline. -/
def Event.bodyWrite : Event → Option (List UInt8)
  | .write chunk _ => some chunk
  | .httpError msg _ => some (bytesOf msg ++ [10])
  | _ => none

/-- The whole upstream body: all bytes its reader delivers. -/
def wholeBody (body : List ReadResult) : List UInt8 :=
  (body.map (fun r => r.data)).flatten

/-- Whether an event is an upstream dispatch. -/
def Event.isDispatch : Event → Bool
  | .dispatch _ => true
  | _ => false

/-- Whether an event is a log line. -/
def Event.isLog : Event → Bool
  | .log _ => true
  | _ => false

/-- The values added under `key` in a sequence of `Add` calls, in order. -/
def valuesUnder (key : String) (adds : List (String × String)) : List String :=
  (adds.filter (fun kv => kv.1 = key)).map (fun kv => kv.2)

/-- The inbound values under `key`, in order (a Go map holds each key once,
so this is the value list of `key`). -/
def inboundValues (key : String) (h : Header) : List String :=
  ((h.filter (fun kv => kv.1 = key)).map (fun kv => kv.2)).flatten

/-- How an outbound value `w` relates to the inbound value `v` it stands for
under `key`: equal, unless `v` is a legacy credential under `Authorization`. -/
def Forwarded (key v w : String) : Prop :=
  ¬ (key = "Authorization" ∧ isAuthHeaderAkSk v = true) → w = v

/-! ## Concrete environments and inputs -/

/-- A sample environment: a clock that advances one nanosecond a reading from
`1700000000` s, a signer that always succeeds, an upstream that answers `200`
with a two-read body, a caller whose writes succeed. -/
def sampleEnv : Env where
  target := "https://api.example.com"
  Now := fun k => 1700000000000000000 + k
  SignedString := fun token _ =>
    match token.Claims.lookup "iss" with
    | some (ClaimValue.str iss) => .ok ("jwt-for-" ++ iss)
    | _ => .ok "jwt"
  ParseURL := fun _ => none
  NewRequest := fun _ _ => none
  Do := fun _ => .ok ⟨200, [("Content-Type", ["text/plain"])],
    [⟨[104, 105], none⟩, ⟨[], some Error.EOF⟩]⟩
  Write := fun _ _ => none

/-- The sample environment with a signer that always fails. -/
def failingSignerEnv : Env :=
  { sampleEnv with SignedString := fun _ _ => .error "key is invalid" }

/-- The sample environment with a caller whose connection is gone: every
write fails. -/
def failingWriteEnv : Env :=
  { sampleEnv with Write := fun _ _ => some (Error.other "broken pipe") }

/-- The sample environment with a clock whose first two readings straddle a
second boundary: `1700000000.999999999` s, then `1700000001.000000000` s. -/
def boundaryClockEnv : Env :=
  { sampleEnv with
    Now := fun k => if k = 0 then 1700000000999999999 else 1700000001000000000 }

/-- A sample inbound request. -/
def sampleRequest : Request where
  Method := "GET"
  Path := "/v1/api/models"
  RawQuery := "foo=bar"
  Header := [("Accept", ["text/html", "*/*"]),
    ("Authorization", ["Bearer sometoken", "Bearer abc|xyz", "Bearer a|b|c"])]
  Body := []

/-! ## Lemmas on the `strings` helpers -/

theorem splitAux_length (sep : Char) (cs cur : List Char) :
    (splitAux sep cs cur).length = cs.count sep + 1 := by
  induction cs generalizing cur with
  | nil => simp [splitAux]
  | cons c cs ih =>
    unfold splitAux
    by_cases h : c = sep
    · subst h
      simp [ih]
    · have h2 : ¬ (c == sep) = true := by simpa using h
      simp [h, h2, ih, List.count_cons]

theorem Split_length (s : String) (sep : Char) :
    (Split s sep).length = s.data.count sep + 1 := by
  unfold Split
  exact splitAux_length sep s.data []

theorem HasPrefix_iff (s p : String) :
    HasPrefix s p = true ↔ ∃ rest : String, s = p ++ rest := by
  unfold HasPrefix
  constructor
  · intro h
    simp only [Bool.and_eq_true, decide_eq_true_eq, beq_iff_eq] at h
    refine ⟨⟨s.data.drop p.data.length⟩, ?_⟩
    apply String.ext
    rw [String.data_append]
    have hsplit : s.data = s.data.take p.data.length ++ s.data.drop p.data.length :=
      (List.take_append_drop _ _).symm
    rw [h.2] at hsplit
    exact hsplit
  · rintro ⟨rest, rfl⟩
    simp [String.data_append]

theorem sliceFrom_append (p rest : String) :
    sliceFrom (p ++ rest) p.data.length = rest := by
  unfold sliceFrom
  apply String.ext
  simp [String.data_append]

theorem Contains_iff (s : String) (sep : Char) :
    Contains s sep = true ↔ 0 < s.data.count sep := by
  unfold Contains
  simp [List.count_pos_iff]

theorem isAuthHeaderAkSk_append (rest : String) :
    isAuthHeaderAkSk ("Bearer " ++ rest) = decide (rest.data.count '|' = 1) := by
  have hp : HasPrefix ("Bearer " ++ rest) "Bearer " = true :=
    (HasPrefix_iff _ _).2 ⟨rest, rfl⟩
  have hs : sliceFrom ("Bearer " ++ rest) 7 = rest := sliceFrom_append "Bearer " rest
  unfold isAuthHeaderAkSk
  simp only [hp, hs, Bool.not_true, Bool.false_eq_true, if_false, Split_length]
  by_cases hc : Contains rest '|' = true
  · by_cases h1 : rest.data.count '|' = 1 <;> simp [hc, h1]
  · have h0 : rest.data.count '|' = 0 := by
      have := (Contains_iff rest '|').not.1 hc
      omega
    simp [hc, h0]

theorem splitAux_no_sep (sep : Char) (cs cur : List Char) (h : sep ∉ cs) :
    splitAux sep cs cur = [⟨cur.reverse ++ cs⟩] := by
  induction cs generalizing cur with
  | nil => simp [splitAux]
  | cons c cs ih =>
    have hc : c ≠ sep := fun e => h (by simp [e])
    have hcs : sep ∉ cs := fun m => h (List.mem_cons_of_mem _ m)
    unfold splitAux
    simp [hc, ih _ hcs]

theorem splitAux_append_sep (sep : Char) (a b cur : List Char) (h : sep ∉ a) :
    splitAux sep (a ++ sep :: b) cur = ⟨cur.reverse ++ a⟩ :: splitAux sep b [] := by
  induction a generalizing cur with
  | nil => simp [splitAux]
  | cons c cs ih =>
    have hc : c ≠ sep := fun e => h (by simp [e])
    have hcs : sep ∉ cs := fun m => h (List.mem_cons_of_mem _ m)
    have hstep : splitAux sep (c :: (cs ++ sep :: b)) cur =
        splitAux sep (cs ++ sep :: b) (c :: cur) := by
      simp only [splitAux, hc, if_false]
    rw [List.cons_append, hstep, ih _ hcs]
    simp

theorem Split_pair (ak sk : String) (hak : '|' ∉ ak.data) (hsk : '|' ∉ sk.data) :
    Split (ak ++ "|" ++ sk) '|' = [ak, sk] := by
  unfold Split
  have hd : (ak ++ "|" ++ sk).data = ak.data ++ '|' :: sk.data := by
    simp [String.data_append]
  rw [hd, splitAux_append_sep '|' _ _ _ hak, splitAux_no_sep '|' _ _ hsk]
  simp

theorem credential_assoc (ak sk : String) :
    "Bearer " ++ ak ++ "|" ++ sk = "Bearer " ++ (ak ++ "|" ++ sk) := by
  apply String.ext
  simp [String.data_append]

theorem isAuthHeaderAkSk_pair (ak sk : String) (hak : '|' ∉ ak.data) (hsk : '|' ∉ sk.data) :
    isAuthHeaderAkSk ("Bearer " ++ ak ++ "|" ++ sk) = true := by
  rw [credential_assoc, isAuthHeaderAkSk_append]
  have hd : (ak ++ "|" ++ sk).data = ak.data ++ '|' :: sk.data := by
    simp [String.data_append]
  have h1 : ak.data.count '|' = 0 := List.count_eq_zero_of_not_mem hak
  have h2 : sk.data.count '|' = 0 := List.count_eq_zero_of_not_mem hsk
  simp [hd, List.count_append, List.count_cons, h1, h2]

theorem isAuthHeaderAkSk_true (v : String) (h : isAuthHeaderAkSk v = true) :
    HasPrefix v "Bearer " = true ∧ (sliceFrom v 7).data.count '|' = 1 := by
  have hp : HasPrefix v "Bearer " = true := by
    by_contra hn
    simp [isAuthHeaderAkSk, hn] at h
  refine ⟨hp, ?_⟩
  obtain ⟨rest, rfl⟩ := (HasPrefix_iff _ _).1 hp
  rw [isAuthHeaderAkSk_append] at h
  have hs : sliceFrom ("Bearer " ++ rest) 7 = rest := sliceFrom_append "Bearer " rest
  rw [hs]
  simpa using h

/-! ## Lemmas on the header loop -/

theorem valuesLoop_legacy (E : Env) (v : String) (rest : List String)
    (out : List (String × String)) (tick : Nat) (h : isAuthHeaderAkSk v = true) :
    ∃ ak sk, Split (sliceFrom v 7) '|' = [ak, sk] ∧
      valuesLoop E "Authorization" (v :: rest) out tick =
        match genJWT E ak sk tick with
        | (.ok token, tick') =>
          valuesLoop E "Authorization" rest (out ++ [("Authorization", token)]) tick'
        | (.error err, _) => .error (.jwt err) := by
  have hlen : (Split (sliceFrom v 7) '|').length = 2 := by
    rw [Split_length, (isAuthHeaderAkSk_true v h).2]
  match hsp : Split (sliceFrom v 7) '|', hlen with
  | [ak, sk], _ =>
    refine ⟨ak, sk, rfl, ?_⟩
    rw [valuesLoop]
    simp only [h, and_self, if_true, hsp, List.get?]

theorem valuesLoop_plain (E : Env) (k v : String) (rest : List String)
    (out : List (String × String)) (tick : Nat)
    (h : ¬ (k = "Authorization" ∧ isAuthHeaderAkSk v = true)) :
    valuesLoop E k (v :: rest) out tick = valuesLoop E k rest (out ++ [(k, v)]) tick := by
  rw [valuesLoop]
  simp only [h, if_false]

theorem valuesLoop_append (E : Env) (k : String) (a b : List String)
    (out : List (String × String)) (tick : Nat) :
    valuesLoop E k (a ++ b) out tick =
      match valuesLoop E k a out tick with
      | .ok (out', tick') => valuesLoop E k b out' tick'
      | .error f => .error f := by
  induction a generalizing out tick with
  | nil => simp [valuesLoop]
  | cons v vs ih =>
    rw [List.cons_append]
    by_cases hleg : k = "Authorization" ∧ isAuthHeaderAkSk v = true
    · obtain ⟨hk, hv⟩ := hleg
      subst hk
      obtain ⟨ak, sk, _, h1⟩ := valuesLoop_legacy E v (vs ++ b) out tick hv
      obtain ⟨ak', sk', _, h2⟩ := valuesLoop_legacy E v vs out tick hv
      have hak : ak' = ak := by simp_all
      have hsk : sk' = sk := by simp_all
      subst hak hsk
      rw [h1, h2]
      rcases hg : genJWT E ak' sk' tick with ⟨res, t'⟩
      cases res with
      | ok token => simp only [ih]
      | error err => rfl
    · rw [valuesLoop_plain E k v _ out tick hleg, valuesLoop_plain E k v _ out tick hleg, ih]

theorem valuesLoop_shape (E : Env) (k : String) (vs : List String)
    (out out' : List (String × String)) (tick tick' : Nat)
    (h : valuesLoop E k vs out tick = .ok (out', tick')) :
    ∃ added, out' = out ++ added ∧ added.length = vs.length ∧ ∀ p ∈ added, p.1 = k := by
  induction vs generalizing out tick with
  | nil =>
    simp only [valuesLoop, Except.ok.injEq, Prod.mk.injEq] at h
    exact ⟨[], by simp [h.1], rfl, by simp⟩
  | cons v vs ih =>
    by_cases hleg : k = "Authorization" ∧ isAuthHeaderAkSk v = true
    · obtain ⟨hk, hv⟩ := hleg
      subst hk
      obtain ⟨ak, sk, _, h1⟩ := valuesLoop_legacy E v vs out tick hv
      rw [h1] at h
      rcases hg : genJWT E ak sk tick with ⟨res, t'⟩
      rw [hg] at h
      cases res with
      | ok token =>
        obtain ⟨added, e1, e2, e3⟩ := ih _ _ h
        refine ⟨("Authorization", token) :: added, by simp [e1], by simp [e2], ?_⟩
        intro p hp
        rcases List.mem_cons.1 hp with rfl | hp
        · rfl
        · exact e3 p hp
      | error err => simp at h
    · rw [valuesLoop_plain E k v _ out tick hleg] at h
      obtain ⟨added, e1, e2, e3⟩ := ih _ _ h
      refine ⟨(k, v) :: added, by simp [e1], by simp [e2], ?_⟩
      intro p hp
      rcases List.mem_cons.1 hp with rfl | hp
      · rfl
      · exact e3 p hp

theorem valuesLoop_in_range (E : Env) (k : String) (vs : List String)
    (out : List (String × String)) (tick : Nat) :
    valuesLoop E k vs out tick ≠ .error .indexOutOfRange := by
  induction vs generalizing out tick with
  | nil => simp [valuesLoop]
  | cons v vs ih =>
    by_cases hleg : k = "Authorization" ∧ isAuthHeaderAkSk v = true
    · obtain ⟨hk, hv⟩ := hleg
      subst hk
      obtain ⟨ak, sk, _, h1⟩ := valuesLoop_legacy E v vs out tick hv
      rw [h1]
      rcases hg : genJWT E ak sk tick with ⟨res, t'⟩
      cases res with
      | ok token => exact ih _ _
      | error err => simp
    · rw [valuesLoop_plain E k v _ out tick hleg]
      exact ih _ _

theorem valuesLoop_other_key (E : Env) (k : String) (vs : List String)
    (out : List (String × String)) (tick : Nat) (hk : k ≠ "Authorization") :
    valuesLoop E k vs out tick = .ok (out ++ vs.map (fun v => (k, v)), tick) := by
  induction vs generalizing out with
  | nil => simp [valuesLoop]
  | cons v vs ih =>
    rw [valuesLoop_plain E k v _ out tick (fun h => hk h.1), ih]
    simp

theorem headerLoop_in_range (E : Env) (h : Header) (out : List (String × String))
    (tick : Nat) : headerLoop E h out tick ≠ .error .indexOutOfRange := by
  induction h generalizing out tick with
  | nil => simp [headerLoop]
  | cons kv rest ih =>
    obtain ⟨k, vs⟩ := kv
    rw [headerLoop]
    have hv := valuesLoop_in_range E k vs out tick
    rcases hr : valuesLoop E k vs out tick with f | ⟨o, t⟩
    · rw [hr] at hv
      cases f with
      | jwt msg => simp
      | indexOutOfRange => exact absurd rfl hv
    · exact ih _ _

/-! ## Claim C1 -/

/-- C1: `isAuthHeaderAkSk v` is true exactly when `v` is `"Bearer "` followed
by a remainder holding exactly one `|`; splitting any remainder on `|` gives
one more segment than it has `|` characters (so two segments in that case);
`"Bearer abc|xyz"` is accepted and `"Bearer sometoken"`, `"Bearer a|b|c"`,
`"abc|xyz"` are rejected. -/
theorem isAuthHeaderAkSk_spec :
    (∀ v : String, isAuthHeaderAkSk v = true ↔
        ∃ rest : String, v = "Bearer " ++ rest ∧ rest.data.count '|' = 1) ∧
    (∀ v : String, isAuthHeaderAkSk v = true ↔
        HasPrefix v "Bearer " = true ∧ (Split (sliceFrom v 7) '|').length = 2) ∧
    (∀ rest : String, (Split rest '|').length = rest.data.count '|' + 1) ∧
    isAuthHeaderAkSk "Bearer abc|xyz" = true ∧
    isAuthHeaderAkSk "Bearer sometoken" = false ∧
    isAuthHeaderAkSk "Bearer a|b|c" = false ∧
    isAuthHeaderAkSk "abc|xyz" = false := by
  refine ⟨?_, ?_, fun rest => Split_length rest '|', by decide, by decide, by decide,
    by decide⟩
  · intro v
    constructor
    · intro h
      have hp : HasPrefix v "Bearer " = true := by
        by_contra hn
        simp [isAuthHeaderAkSk, hn] at h
      obtain ⟨rest, rfl⟩ := (HasPrefix_iff _ _).1 hp
      refine ⟨rest, rfl, ?_⟩
      rw [isAuthHeaderAkSk_append] at h
      simpa using h
    · rintro ⟨rest, rfl, hc⟩
      rw [isAuthHeaderAkSk_append]
      simpa using hc
  · intro v
    constructor
    · intro h
      have hp : HasPrefix v "Bearer " = true := by
        by_contra hn
        simp [isAuthHeaderAkSk, hn] at h
      obtain ⟨rest, rfl⟩ := (HasPrefix_iff _ _).1 hp
      rw [isAuthHeaderAkSk_append] at h
      have hs : sliceFrom ("Bearer " ++ rest) 7 = rest := sliceFrom_append "Bearer " rest
      refine ⟨hp, ?_⟩
      rw [hs, Split_length]
      have : rest.data.count '|' = 1 := by simpa using h
      omega
    · rintro ⟨hp, hl⟩
      obtain ⟨rest, rfl⟩ := (HasPrefix_iff _ _).1 hp
      have hs : sliceFrom ("Bearer " ++ rest) 7 = rest := sliceFrom_append "Bearer " rest
      rw [hs, Split_length] at hl
      rw [isAuthHeaderAkSk_append]
      have : rest.data.count '|' = 1 := by omega
      simpa using this

/-! ## Claim C2 -/

/-- C2: in the header loop, an inbound `Authorization` value
`"Bearer " ++ ak ++ "|" ++ sk` with no `|` in `ak` or `sk`, reached after the
values `pre` before it were forwarded, whose signing succeeds with `token`,
makes exactly one `Add("Authorization", token)` where `token` is what
`genJWT ak sk` returned, and the loop goes on with the values `post` after it:
the split of the remainder is `[ak, sk]`, the completed loop holds `token` at
the position of the value and one entry per inbound value (the original is
not forwarded as well), and no run of the loop indexes the split out of
range. -/
theorem headerLoop_replaces_credential (E : Env) (ak sk : String) (pre post : List String)
    (out out1 : List (String × String)) (tick tick1 tick2 : Nat) (token : String)
    (hak : '|' ∉ ak.data) (hsk : '|' ∉ sk.data)
    (hpre : valuesLoop E "Authorization" pre out tick = .ok (out1, tick1))
    (hsign : genJWT E ak sk tick1 = (.ok token, tick2)) :
    Split (sliceFrom ("Bearer " ++ ak ++ "|" ++ sk) 7) '|' = [ak, sk] ∧
    valuesLoop E "Authorization" (pre ++ ("Bearer " ++ ak ++ "|" ++ sk) :: post) out tick =
      valuesLoop E "Authorization" post (out1 ++ [("Authorization", token)]) tick2 ∧
    (∀ out' tick',
      valuesLoop E "Authorization" (pre ++ ("Bearer " ++ ak ++ "|" ++ sk) :: post) out tick =
        .ok (out', tick') →
      ∃ before after, out' = out ++ before ++ ("Authorization", token) :: after ∧
        before.length = pre.length ∧ after.length = post.length) ∧
    (∀ (k : String) (vs : List String) (o : List (String × String)) (t : Nat),
      valuesLoop E k vs o t ≠ .error .indexOutOfRange) ∧
    (∀ (h : Header) (o : List (String × String)) (t : Nat),
      headerLoop E h o t ≠ .error .indexOutOfRange) := by
  have hv := isAuthHeaderAkSk_pair ak sk hak hsk
  have hsplit : Split (sliceFrom ("Bearer " ++ ak ++ "|" ++ sk) 7) '|' = [ak, sk] := by
    rw [credential_assoc]
    have hs : sliceFrom ("Bearer " ++ (ak ++ "|" ++ sk)) 7 = ak ++ "|" ++ sk :=
      sliceFrom_append "Bearer " _
    rw [hs, Split_pair ak sk hak hsk]
  have hstep :
      valuesLoop E "Authorization" (pre ++ ("Bearer " ++ ak ++ "|" ++ sk) :: post) out tick =
        valuesLoop E "Authorization" post (out1 ++ [("Authorization", token)]) tick2 := by
    rw [valuesLoop_append, hpre]
    obtain ⟨ak', sk', hsp, h1⟩ :=
      valuesLoop_legacy E ("Bearer " ++ ak ++ "|" ++ sk) post out1 tick1 hv
    rw [hsplit] at hsp
    have e1 : ak = ak' := by simp_all
    have e2 : sk = sk' := by simp_all
    subst e1 e2
    show valuesLoop E "Authorization" (("Bearer " ++ ak ++ "|" ++ sk) :: post) out1 tick1 = _
    rw [h1, hsign]
  refine ⟨hsplit, hstep, ?_, fun k vs o t => valuesLoop_in_range E k vs o t,
    fun h o t => headerLoop_in_range E h o t⟩
  intro out' tick' hrun
  rw [hstep] at hrun
  obtain ⟨before, hb1, hb2, _⟩ := valuesLoop_shape E _ _ _ _ _ _ hpre
  obtain ⟨after, ha1, ha2, _⟩ := valuesLoop_shape E _ _ _ _ _ _ hrun
  refine ⟨before, after, ?_, hb2, ha2⟩
  rw [ha1, hb1]
  simp

/-- Witness for C2: the sample environment, `ak = "abc"`, `sk = "xyz"`, after
one ordinary value and before another. -/
theorem headerLoop_replaces_credential_witness :
    valuesLoop sampleEnv "Authorization" ["Bearer sometoken", "Bearer abc|xyz", "Bearer a|b|c"]
        [] 0 =
      .ok ([("Authorization", "Bearer sometoken"), ("Authorization", "jwt-for-abc"),
        ("Authorization", "Bearer a|b|c")], 2) := by
  have h := headerLoop_replaces_credential sampleEnv "abc" "xyz" ["Bearer sometoken"]
    ["Bearer a|b|c"] [] [("Authorization", "Bearer sometoken")] 0 0 2 "jwt-for-abc"
    (by decide) (by decide) (by rfl) (by rfl)
  exact h.2.1.trans (by rfl)

/-! ## Claim C3 -/

theorem Unix_Add_120 (t : Time) : (t.Add (Second * 120)).Unix = t.Unix + 120 := by
  unfold Time.Add Time.Unix Second
  omega

theorem Unix_Sub_5 (t : Time) : (t.Add (-Second * 5)).Unix = t.Unix - 5 := by
  unfold Time.Add Time.Unix Second
  omega

/-- C3, as the code has it: `genJWT` reads the clock twice, first for `exp`
and then for `nbf`.  With `t1` and `t2` the whole Unix seconds of the first
and the second reading, the claim set is exactly `iss = ak`, `exp = t1 + 120`,
`nbf = t2 - 5`, so the window `exp - nbf` is `125 - (t2 - t1)`; the token
carries the HS256 method and is signed with the bytes of `sk` as the key. -/
theorem genJWT_claims (E : Env) (ak sk : String) (tick : Nat) :
    genJWTToken E ak tick =
      ⟨SigningMethod.HS256,
        [("iss", ClaimValue.str ak),
         ("exp", ClaimValue.num ((E.Now tick).Unix + 120)),
         ("nbf", ClaimValue.num ((E.Now (tick + 1)).Unix - 5))]⟩ ∧
    ((E.Now tick).Unix + 120) - ((E.Now (tick + 1)).Unix - 5) =
      125 - ((E.Now (tick + 1)).Unix - (E.Now tick).Unix) ∧
    genJWT E ak sk tick = (E.SignedString (genJWTToken E ak tick) (bytesOf sk), tick + 2) := by
  refine ⟨?_, by omega, rfl⟩
  simp only [genJWTToken, NewWithClaims, Unix_Add_120, Unix_Sub_5]

/-- C3 fails as stated: with the first clock reading at
`1700000000.999999999` s and the second at `1700000001.000000000` s, `genJWT`
signs `exp = 1700000120` and `nbf = 1699999996`, a window of 124 seconds, and
no single issuance second `t` gives both `nbf = t - 5` and `exp = t + 120`. -/
theorem genJWT_window_counterexample :
    (genJWTToken boundaryClockEnv "abc" 0).Claims =
      [("iss", ClaimValue.str "abc"), ("exp", ClaimValue.num 1700000120),
       ("nbf", ClaimValue.num 1699999996)] ∧
    (1700000120 : Int) - 1699999996 = 124 ∧
    ¬ ∃ t : Int, (genJWTToken boundaryClockEnv "abc" 0).Claims =
      [("iss", ClaimValue.str "abc"), ("exp", ClaimValue.num (t + 120)),
       ("nbf", ClaimValue.num (t - 5))] := by
  have hc : (genJWTToken boundaryClockEnv "abc" 0).Claims =
      [("iss", ClaimValue.str "abc"), ("exp", ClaimValue.num 1700000120),
       ("nbf", ClaimValue.num 1699999996)] := by decide
  refine ⟨hc, by decide, ?_⟩
  rintro ⟨t, ht⟩
  rw [hc] at ht
  simp only [List.cons.injEq, Prod.mk.injEq, ClaimValue.num.injEq, true_and, and_true] at ht
  omega

/-! ## Lemmas on the relay loop and the handler -/

theorem relayLoop_cases (E : Env) (r : ReadResult) (rest : List ReadResult) (k : Nat) :
    ((r.err = some Error.EOF ∨ r.data.length = 0) ∧
      relayLoop E (r :: rest) k = [Event.read r.data.length r.err]) ∨
    (∃ err, r.err = some err ∧ err ≠ Error.EOF ∧ r.data.length ≠ 0 ∧
      relayLoop E (r :: rest) k =
        [Event.read r.data.length r.err,
         Event.log ["error while reading respbody: ", err.text],
         Event.httpError err.text StatusInternalServerError]) ∨
    (r.err = none ∧ relayBufSize < r.data.length ∧
      relayLoop E (r :: rest) k =
        [Event.read r.data.length r.err,
         Event.runtimePanic "slice bounds out of range"]) ∨
    (∃ err, r.err = none ∧ r.data.length ≠ 0 ∧ r.data.length ≤ relayBufSize ∧
      E.Write k r.data = some err ∧
      relayLoop E (r :: rest) k =
        [Event.read r.data.length r.err,
         Event.write r.data (some err),
         Event.log ["error while writing resp: ", err.text],
         Event.httpError err.text StatusInternalServerError]) ∨
    (r.err = none ∧ r.data.length ≠ 0 ∧ r.data.length ≤ relayBufSize ∧
      E.Write k r.data = none ∧
      relayLoop E (r :: rest) k =
        Event.read r.data.length r.err :: Event.write r.data none :: Event.flush ::
          relayLoop E rest (k + 1)) := by
  rw [relayLoop]
  by_cases hstop : r.err = some Error.EOF ∨ r.data.length = 0
  · left
    exact ⟨hstop, by simp only [hstop, if_true]⟩
  · right
    have hn : r.data.length ≠ 0 := fun h => hstop (Or.inr h)
    cases he : r.err with
    | some err =>
      left
      have hne : err ≠ Error.EOF := by
        rintro rfl
        exact hstop (Or.inl he)
      refine ⟨err, rfl, hne, hn, ?_⟩
      rw [he] at hstop
      simp only [hstop, if_false]
    | none =>
      right
      rw [he] at hstop
      by_cases hbig : relayBufSize < r.data.length
      · left
        exact ⟨rfl, hbig, by simp only [hstop, hbig, if_false, if_true]⟩
      · right
        have hle : r.data.length ≤ relayBufSize := by omega
        cases hw : E.Write k r.data with
        | some err =>
          left
          exact ⟨err, rfl, hn, hle, rfl, by simp only [hstop, hbig, if_false]⟩
        | none =>
          right
          exact ⟨rfl, hn, hle, rfl, by simp only [hstop, hbig, if_false]⟩

theorem relayLoop_no_dispatch (E : Env) (body : List ReadResult) (k : Nat)
    (req : ProxyRequest) : Event.dispatch req ∉ relayLoop E body k := by
  induction body generalizing k with
  | nil => simp [relayLoop]
  | cons r rest ih =>
    rcases relayLoop_cases E r rest k with ⟨_, h⟩ | ⟨_, _, _, _, h⟩ | ⟨_, _, h⟩ |
      ⟨_, _, _, _, _, h⟩ | ⟨_, _, _, _, h⟩ <;> rw [h]
    · simp
    · simp
    · simp
    · simp
    · simp [ih]

theorem copyResponseHeader_no_dispatch (h : Header) (req : ProxyRequest) :
    Event.dispatch req ∉ copyResponseHeader h := by
  unfold copyResponseHeader
  simp only [List.mem_flatten, List.mem_map, not_exists, not_and]
  rintro l ⟨kv, _, rfl⟩ hm
  simp at hm

theorem dispatch_url (E : Env) (r : Request) (req : ProxyRequest)
    (h : Event.dispatch req ∈ handleRequest E r) : req.URL = targetURL E.target r := by
  unfold handleRequest at h
  cases hp : E.ParseURL r with
  | some err => simp [hp] at h
  | none =>
    cases hn : E.NewRequest r.Method (targetURL E.target r) with
    | some err => simp [hp, hn] at h
    | none =>
      rcases hh : headerLoop E r.Header [] 0 with f | ⟨header, t⟩
      · cases f <;> simp [hp, hn, hh] at h
      · simp only [hp, hn, hh] at h
        cases hd : E.Do ⟨r.Method, targetURL E.target r, r.Body, header⟩ with
        | error err =>
          simp [hd] at h
          rw [h]
        | ok resp =>
          simp only [hd, List.mem_cons, List.mem_append, Event.dispatch.injEq,
            relayLoop_no_dispatch, copyResponseHeader_no_dispatch, reduceCtorEq,
            List.mem_singleton, false_or, or_false, List.not_mem_nil] at h
          rw [h]

/-! ## Claims C4 and C5 -/

/-- C4: the destination URL `handleRequest` computes is
`origin ++ resolved path ++ ("?" ++ query when the query is non-empty)`, with
`origin = "https://" ++ h` when the `X-Target-Host` value `h` is non-empty (the
default `d` is then not used) and `origin = d` otherwise; an absent header
reads as `h = ""`; the query is appended as it is; every upstream dispatch
goes to that URL; `/v1/api/models?foo=bar` with no override and default
`https://api.example.com` gives `https://api.example.com/v1/llm/models?foo=bar`. -/
theorem targetURL_spec (d : String) (r : Request) :
    targetURL d r =
      (if r.Header.Get "X-Target-Host" ≠ "" then "https://" ++ r.Header.Get "X-Target-Host"
        else d) ++ resolvePath r.Path ++
        (if r.RawQuery ≠ "" then "?" ++ r.RawQuery else "") ∧
    (∀ h : Header, h.lookup "X-Target-Host" = none → h.Get "X-Target-Host" = "") ∧
    (∀ (E : Env) (req : ProxyRequest),
      Event.dispatch req ∈ handleRequest E r → req.URL = targetURL E.target r) ∧
    targetURL "https://api.example.com" ⟨"GET", "/v1/api/models", "foo=bar", [], []⟩ =
      "https://api.example.com/v1/llm/models?foo=bar" ∧
    targetURL "https://api.example.com"
        ⟨"GET", "/v1/api/models", "", [("X-Target-Host", ["other.example.org"])], []⟩ =
      "https://other.example.org/v1/llm/models" := by
  refine ⟨?_, ?_, fun E req h => dispatch_url E r req h, by decide, by decide⟩
  · unfold targetURL
    by_cases hh : r.Header.Get "X-Target-Host" = "" <;>
      by_cases hq : r.RawQuery = "" <;> simp [hh, hq, String.append_assoc]
  · intro h hl
    simp [Header.Get, hl]

/-- Witness for C4: the sample request in the sample environment is
dispatched to the URL the formula gives. -/
theorem targetURL_spec_witness :
    ∃ req : ProxyRequest, Event.dispatch req ∈ handleRequest sampleEnv sampleRequest ∧
      req.URL = "https://api.example.com/v1/llm/models?foo=bar" ∧
      sampleRequest.Header.Get "X-Target-Host" = "" := by
  refine ⟨⟨"GET", "https://api.example.com/v1/llm/models?foo=bar", [],
    [("Accept", "text/html"), ("Accept", "*/*"), ("Authorization", "Bearer sometoken"),
     ("Authorization", "jwt-for-abc"), ("Authorization", "Bearer a|b|c")]⟩, by decide, rfl, ?_⟩
  exact (targetURL_spec "https://api.example.com" sampleRequest).2.1 _ (by decide)

/-- C5: the resolved path is the alias of `p` when `p` is exactly one of the
two keys of `pathMap` and `p` itself otherwise; a path that only extends a key
(`/v1/api/models/`, `/v1/api/models/x`) is passed through unchanged. -/
theorem resolvePath_spec (p : String) :
    resolvePath p = (pathMap.lookup p).getD p ∧
    pathMap.map Prod.fst = ["/v1/api/chat/completions", "/v1/api/models"] ∧
    resolvePath p =
      (if p = "/v1/api/chat/completions" then "/v1/llm/chat-completions"
       else if p = "/v1/api/models" then "/v1/llm/models"
       else p) ∧
    resolvePath "/v1/api/chat/completions" = "/v1/llm/chat-completions" ∧
    resolvePath "/v1/api/models" = "/v1/llm/models" ∧
    resolvePath "/v1/api/models/" = "/v1/api/models/" ∧
    resolvePath "/v1/api/models/x" = "/v1/api/models/x" ∧
    resolvePath "/v1/api" = "/v1/api" := by
  refine ⟨?_, by decide, ?_, by decide, by decide, by decide, by decide, by decide⟩
  · unfold resolvePath
    cases pathMap.lookup p <;> rfl
  · unfold resolvePath pathMap
    by_cases h1 : p = "/v1/api/chat/completions"
    · subst h1
      decide
    · by_cases h2 : p = "/v1/api/models"
      · subst h2
        decide
      · have b1 : (p == "/v1/api/chat/completions") = false := by simpa using h1
        have b2 : (p == "/v1/api/models") = false := by simpa using h2
        simp [List.lookup, h1, h2, b1, b2]

/-! ## Claim C6 -/

theorem valuesLoop_forwarded (E : Env) (k : String) (vs : List String)
    (out out' : List (String × String)) (tick tick' : Nat)
    (h : valuesLoop E k vs out tick = .ok (out', tick')) :
    ∃ added : List String, out' = out ++ added.map (fun w => (k, w)) ∧
      List.Forall₂ (Forwarded k) vs added := by
  induction vs generalizing out tick with
  | nil =>
    simp only [valuesLoop, Except.ok.injEq, Prod.mk.injEq] at h
    exact ⟨[], by simp [h.1], List.Forall₂.nil⟩
  | cons v vs ih =>
    by_cases hleg : k = "Authorization" ∧ isAuthHeaderAkSk v = true
    · obtain ⟨hk, hv⟩ := hleg
      subst hk
      obtain ⟨ak, sk, _, h1⟩ := valuesLoop_legacy E v vs out tick hv
      rw [h1] at h
      rcases hg : genJWT E ak sk tick with ⟨res, t'⟩
      rw [hg] at h
      cases res with
      | ok token =>
        obtain ⟨added, e1, e2⟩ := ih _ _ h
        refine ⟨token :: added, by simp [e1], List.Forall₂.cons ?_ e2⟩
        intro hn
        exact absurd ⟨rfl, hv⟩ hn
      | error err => simp at h
    · rw [valuesLoop_plain E k v _ out tick hleg] at h
      obtain ⟨added, e1, e2⟩ := ih _ _ h
      exact ⟨v :: added, by simp [e1], List.Forall₂.cons (fun _ => rfl) e2⟩

theorem valuesUnder_append (k : String) (a b : List (String × String)) :
    valuesUnder k (a ++ b) = valuesUnder k a ++ valuesUnder k b := by
  simp [valuesUnder]

theorem valuesUnder_same (k : String) (ws : List String) :
    valuesUnder k (ws.map (fun w => (k, w))) = ws := by
  induction ws with
  | nil => rfl
  | cons w ws ih =>
    simp only [valuesUnder, List.map_cons, List.filter_cons, decide_True, if_true] at ih ⊢
    rw [ih]

theorem valuesUnder_other (k k0 : String) (ws : List String) (h : k0 ≠ k) :
    valuesUnder k (ws.map (fun w => (k0, w))) = [] := by
  induction ws with
  | nil => rfl
  | cons w ws ih =>
    simp only [valuesUnder, List.map_cons, List.filter_cons, h, decide_False] at ih ⊢
    simpa using ih

theorem inboundValues_cons (k k0 : String) (vs : List String) (rest : Header) :
    inboundValues k ((k0, vs) :: rest) =
      (if k0 = k then vs else []) ++ inboundValues k rest := by
  unfold inboundValues
  by_cases h : k0 = k <;> simp [List.filter_cons, h]

theorem headerLoop_forwarded (E : Env) (h : Header) (out out' : List (String × String))
    (tick tick' : Nat) (hrun : headerLoop E h out tick = .ok (out', tick')) :
    ∃ added, out' = out ++ added ∧
      ∀ k, List.Forall₂ (Forwarded k) (inboundValues k h) (valuesUnder k added) := by
  induction h generalizing out tick with
  | nil =>
    simp only [headerLoop, Except.ok.injEq, Prod.mk.injEq] at hrun
    exact ⟨[], by simp [hrun.1], fun k => List.Forall₂.nil⟩
  | cons kv rest ih =>
    obtain ⟨k0, vs⟩ := kv
    rw [headerLoop] at hrun
    rcases hv : valuesLoop E k0 vs out tick with f | ⟨o, t⟩
    · rw [hv] at hrun
      simp at hrun
    · rw [hv] at hrun
      obtain ⟨added0, e0, f0⟩ := valuesLoop_forwarded E k0 vs out o tick t hv
      obtain ⟨added1, e1, f1⟩ := ih _ _ hrun
      refine ⟨added0.map (fun w => (k0, w)) ++ added1, by simp [e1, e0], ?_⟩
      intro k
      rw [inboundValues_cons, valuesUnder_append]
      apply List.rel_append
      · by_cases hk : k0 = k
        · subst hk
          simpa [valuesUnder_same] using f0
        · simp [hk, valuesUnder_other k k0 added0 hk]
      · exact f1 k

theorem forall₂_eq_of_forwarded (k : String) (vs ws : List String) (hk : k ≠ "Authorization")
    (h : List.Forall₂ (Forwarded k) vs ws) : ws = vs := by
  induction h with
  | nil => rfl
  | cons hd _ ih =>
    rw [ih, hd (fun hc => hk hc.1)]

theorem not_legacy_of_shape (v : String)
    (h : HasPrefix v "Bearer " = false ∨ (sliceFrom v 7).data.count '|' = 0 ∨
      1 < (sliceFrom v 7).data.count '|') : ¬ isAuthHeaderAkSk v = true := by
  intro hv
  obtain ⟨h1, h2⟩ := isAuthHeaderAkSk_true v hv
  rcases h with h | h | h
  · simp [h1] at h
  · omega
  · omega

/-- C6: when the header loop completes with the outbound `Add` list `out`,
(a) for every key `k` other than `Authorization` the values under `k` in `out`
are the inbound values under `k`, same order and multiplicity; (b) under
`Authorization` the outbound list is as long as the inbound one and every
inbound value lacking the `"Bearer "` prefix, lacking `|` after it, or with
more than one `|`, stands unchanged at its position; (c) the inner loop over
the values of a key other than `Authorization` always completes and adds
exactly those values. -/
theorem headerLoop_frame (E : Env) (h : Header) (out : List (String × String)) (tick : Nat)
    (hrun : headerLoop E h [] 0 = .ok (out, tick)) :
    (∀ k, k ≠ "Authorization" → valuesUnder k out = inboundValues k h) ∧
    (valuesUnder "Authorization" out).length = (inboundValues "Authorization" h).length ∧
    (∀ (i : Nat) (v : String), (inboundValues "Authorization" h)[i]? = some v →
      (HasPrefix v "Bearer " = false ∨ (sliceFrom v 7).data.count '|' = 0 ∨
        1 < (sliceFrom v 7).data.count '|') →
      (valuesUnder "Authorization" out)[i]? = some v) ∧
    (∀ (k : String) (vs : List String) (o : List (String × String)) (t : Nat),
      k ≠ "Authorization" →
      valuesLoop E k vs o t = .ok (o ++ vs.map (fun v => (k, v)), t)) := by
  obtain ⟨added, e, f⟩ := headerLoop_forwarded E h [] out 0 tick hrun
  rw [List.nil_append] at e
  subst e
  refine ⟨fun k hk => forall₂_eq_of_forwarded k _ _ hk (f k), (f _).length_eq.symm, ?_,
    fun k vs o t hk => valuesLoop_other_key E k vs o t hk⟩
  intro i v hi hshape
  have hf := f "Authorization"
  have hlt : i < (inboundValues "Authorization" h).length := by
    by_contra hge
    rw [List.getElem?_eq_none (by omega)] at hi
    simp at hi
  have hlt' : i < (valuesUnder "Authorization" out).length := by
    rw [← hf.length_eq]
    exact hlt
  have hrel := List.Forall₂.get hf hlt hlt'
  rw [List.getElem?_eq_getElem hlt] at hi
  rw [List.getElem?_eq_getElem hlt']
  simp only [Option.some.injEq] at hi ⊢
  simp only [List.get_eq_getElem] at hrel
  rw [hi] at hrel
  exact hrel (fun hc => not_legacy_of_shape v hshape hc.2)

/-- Witness for C6: the sample request's header in the sample environment. -/
theorem headerLoop_frame_witness :
    valuesUnder "Accept"
        [("Accept", "text/html"), ("Accept", "*/*"), ("Authorization", "Bearer sometoken"),
         ("Authorization", "jwt-for-abc"), ("Authorization", "Bearer a|b|c")] =
      inboundValues "Accept" sampleRequest.Header ∧
    (valuesUnder "Authorization"
        [("Accept", "text/html"), ("Accept", "*/*"), ("Authorization", "Bearer sometoken"),
         ("Authorization", "jwt-for-abc"), ("Authorization", "Bearer a|b|c")])[2]? =
      some "Bearer a|b|c" := by
  have h := headerLoop_frame sampleEnv sampleRequest.Header
    [("Accept", "text/html"), ("Accept", "*/*"), ("Authorization", "Bearer sometoken"),
     ("Authorization", "jwt-for-abc"), ("Authorization", "Bearer a|b|c")] 2 (by rfl)
  exact ⟨h.1 "Accept" (by decide), h.2.2.1 2 "Bearer a|b|c" (by decide) (by decide)⟩

/-! ## Claim C9 -/

theorem valuesLoop_fails (E : Env) (vs : List String) (v : String)
    (out : List (String × String)) (tick : Nat) (hv : v ∈ vs)
    (hleg : isAuthHeaderAkSk v = true)
    (hfail : ∀ ak sk t, Split (sliceFrom v 7) '|' = [ak, sk] →
      ∃ err, (genJWT E ak sk t).1 = .error err) :
    ∃ err, valuesLoop E "Authorization" vs out tick = .error (.jwt err) := by
  induction vs generalizing out tick with
  | nil => simp at hv
  | cons w ws ih =>
    by_cases hw : isAuthHeaderAkSk w = true
    · obtain ⟨ak, sk, hsp, h1⟩ := valuesLoop_legacy E w ws out tick hw
      rw [h1]
      rcases hg : genJWT E ak sk tick with ⟨res, t'⟩
      cases res with
      | error err => exact ⟨err, rfl⟩
      | ok token =>
        rcases List.mem_cons.1 hv with rfl | hmem
        · obtain ⟨err, he⟩ := hfail ak sk tick hsp
          rw [hg] at he
          simp at he
        · exact ih _ _ hmem
    · have hne : v ≠ w := by
        rintro rfl
        exact hw hleg
      have hmem : v ∈ ws := by
        rcases List.mem_cons.1 hv with h | h
        · exact absurd h hne
        · exact h
      rw [valuesLoop_plain E _ w _ out tick (fun h => hw h.2)]
      exact ih _ _ hmem

theorem headerLoop_fails (E : Env) (h : Header) (vs : List String) (v : String)
    (out : List (String × String)) (tick : Nat) (hmem : ("Authorization", vs) ∈ h)
    (hv : v ∈ vs) (hleg : isAuthHeaderAkSk v = true)
    (hfail : ∀ ak sk t, Split (sliceFrom v 7) '|' = [ak, sk] →
      ∃ err, (genJWT E ak sk t).1 = .error err) :
    ∃ err, headerLoop E h out tick = .error (.jwt err) := by
  induction h generalizing out tick with
  | nil => simp at hmem
  | cons kv rest ih =>
    obtain ⟨k0, vs0⟩ := kv
    rw [headerLoop]
    rcases hr : valuesLoop E k0 vs0 out tick with f | ⟨o, t⟩
    · cases f with
      | jwt msg => exact ⟨msg, rfl⟩
      | indexOutOfRange => exact absurd hr (valuesLoop_in_range E k0 vs0 out tick)
    · rcases List.mem_cons.1 hmem with heq | hm
      · simp only [Prod.mk.injEq] at heq
        obtain ⟨rfl, rfl⟩ := heq
        obtain ⟨err, he⟩ := valuesLoop_fails E vs v out tick hv hleg hfail
        rw [he] at hr
        simp at hr
      · exact ih _ _ hm

theorem relayLoop_countP_dispatch (E : Env) (body : List ReadResult) (k : Nat) :
    (relayLoop E body k).countP Event.isDispatch = 0 := by
  rw [List.countP_eq_zero]
  intro e he hd
  cases e <;> simp [Event.isDispatch] at hd
  exact relayLoop_no_dispatch E body k _ he

theorem copyResponseHeader_countP_dispatch (h : Header) :
    (copyResponseHeader h).countP Event.isDispatch = 0 := by
  rw [List.countP_eq_zero]
  intro e he hd
  cases e <;> simp [Event.isDispatch] at hd
  exact copyResponseHeader_no_dispatch h _ he

theorem dispatch_header (E : Env) (r : Request) (req : ProxyRequest)
    (h : Event.dispatch req ∈ handleRequest E r) :
    ∃ tick, headerLoop E r.Header [] 0 = .ok (req.Header, tick) := by
  unfold handleRequest at h
  cases hp : E.ParseURL r with
  | some err => simp [hp] at h
  | none =>
    cases hn : E.NewRequest r.Method (targetURL E.target r) with
    | some err => simp [hp, hn] at h
    | none =>
      rcases hh : headerLoop E r.Header [] 0 with f | ⟨header, t⟩
      · cases f <;> simp [hp, hn, hh] at h
      · simp only [hp, hn, hh] at h
        cases hd : E.Do ⟨r.Method, targetURL E.target r, r.Body, header⟩ with
        | error err =>
          simp [hd] at h
          exact ⟨t, by rw [h]⟩
        | ok resp =>
          simp only [hd, List.mem_cons, List.mem_append, Event.dispatch.injEq,
            relayLoop_no_dispatch, copyResponseHeader_no_dispatch, reduceCtorEq,
            List.mem_singleton, false_or, or_false, List.not_mem_nil] at h
          exact ⟨t, by rw [h]⟩

theorem handleRequest_dispatch_once (E : Env) (r : Request) :
    (handleRequest E r).countP Event.isDispatch ≤ 1 := by
  unfold handleRequest
  cases hp : E.ParseURL r with
  | some err => simp [Event.isDispatch]
  | none =>
    cases hn : E.NewRequest r.Method (targetURL E.target r) with
    | some err => simp [Event.isDispatch]
    | none =>
      rcases hh : headerLoop E r.Header [] 0 with f | ⟨header, t⟩
      · cases f <;> simp [Event.isDispatch]
      · cases hd : E.Do ⟨r.Method, targetURL E.target r, r.Body, header⟩ with
        | error err => simp [hd, Event.isDispatch]
        | ok resp =>
          simp [hd, Event.isDispatch, List.countP_cons, List.countP_append,
            relayLoop_countP_dispatch, copyResponseHeader_countP_dispatch]

theorem headerLoop_append (E : Env) (a b : Header) (out : List (String × String))
    (tick : Nat) :
    headerLoop E (a ++ b) out tick =
      match headerLoop E a out tick with
      | .ok (out', tick') => headerLoop E b out' tick'
      | .error f => .error f := by
  induction a generalizing out tick with
  | nil => simp [headerLoop]
  | cons kv rest ih =>
    obtain ⟨k0, vs0⟩ := kv
    rw [List.cons_append, headerLoop, headerLoop]
    rcases valuesLoop E k0 vs0 out tick with f | ⟨o, t⟩
    · rfl
    · exact ih o t

theorem headerLoop_first_failure (E : Env) (pre post : Header) (vs1 vs2 : List String)
    (v ak sk err : String) (out0 out1 : List (String × String)) (tick0 tick1 : Nat)
    (hpre : headerLoop E pre [] 0 = .ok (out0, tick0))
    (hvs1 : valuesLoop E "Authorization" vs1 out0 tick0 = .ok (out1, tick1))
    (hleg : isAuthHeaderAkSk v = true)
    (hsplit : Split (sliceFrom v 7) '|' = [ak, sk])
    (hfail : (genJWT E ak sk tick1).1 = .error err) :
    headerLoop E (pre ++ ("Authorization", vs1 ++ v :: vs2) :: post) [] 0 =
      .error (.jwt err) := by
  rw [headerLoop_append, hpre]
  simp only [headerLoop]
  rw [valuesLoop_append, hvs1]
  obtain ⟨ak', sk', hsp, h1⟩ := valuesLoop_legacy E v vs2 out1 tick1 hleg
  rw [hsplit] at hsp
  have e1 : ak = ak' := by simp_all
  have e2 : sk = sk' := by simp_all
  subst e1 e2
  simp only [h1]
  rcases hg : genJWT E ak sk tick1 with ⟨res, t'⟩
  rw [hg] at hfail
  simp only at hfail
  subst hfail
  rfl

theorem handleRequest_of_jwt_error (E : Env) (r : Request) (err : String)
    (herr : headerLoop E r.Header [] 0 = .error (.jwt err)) :
    (∀ req, Event.dispatch req ∉ handleRequest E r) ∧
    (∃ logs msg, handleRequest E r = logs ++ [Event.httpError msg 500] ∧
      ∀ e ∈ logs, e.isLog = true) ∧
    (E.ParseURL r = none → E.NewRequest r.Method (targetURL E.target r) = none →
      handleRequest E r =
        [Event.log ["origin path", r.Path],
         Event.log ["Proxying request to: ", targetURL E.target r],
         Event.log ["Error generating JWT: ", err],
         Event.httpError "Error generating JWT" 500]) := by
  refine ⟨?_, ?_, ?_⟩
  · intro req hreq
    obtain ⟨t, ht⟩ := dispatch_header E r req hreq
    rw [herr] at ht
    simp at ht
  · unfold handleRequest
    cases hp : E.ParseURL r with
    | some e =>
      exact ⟨[Event.log ["Error parsing URL: ", e]], _, rfl, by simp [Event.isLog]⟩
    | none =>
      cases hn : E.NewRequest r.Method (targetURL E.target r) with
      | some e =>
        exact ⟨[Event.log ["origin path", r.Path],
          Event.log ["Proxying request to: ", targetURL E.target r],
          Event.log ["Error creating proxy request: ", e]], _, rfl, by simp [Event.isLog]⟩
      | none =>
        simp only [herr]
        exact ⟨[Event.log ["origin path", r.Path],
          Event.log ["Proxying request to: ", targetURL E.target r],
          Event.log ["Error generating JWT: ", err]], _, rfl, by simp [Event.isLog]⟩
  · intro hp hn
    unfold handleRequest
    simp only [hp, hn, herr]
    rfl

/-- A credential that can never be signed: when the inbound header holds,
under `Authorization`, a legacy credential whose signing fails whenever it is
attempted, `handleRequest` dispatches nothing and ends with `http.Error` 500. -/
theorem handleRequest_unsignable_credential (E : Env) (r : Request) (vs : List String)
    (v : String) (hmem : ("Authorization", vs) ∈ r.Header) (hv : v ∈ vs)
    (hleg : isAuthHeaderAkSk v = true)
    (hfail : ∀ ak sk t, Split (sliceFrom v 7) '|' = [ak, sk] →
      ∃ err, (genJWT E ak sk t).1 = .error err) :
    (∀ req, Event.dispatch req ∉ handleRequest E r) ∧
    (∃ logs msg, handleRequest E r = logs ++ [Event.httpError msg 500] ∧
      ∀ e ∈ logs, e.isLog = true) := by
  obtain ⟨err, herr⟩ := headerLoop_fails E r.Header vs v [] 0 hmem hv hleg hfail
  obtain ⟨h1, h2, _⟩ := handleRequest_of_jwt_error E r err herr
  exact ⟨h1, h2⟩

/-- C9: in a run where minting fails, that is, where the header loop, having
forwarded the entries `pre` and the `Authorization` values `vs1`, reaches a
legacy credential `v` whose `genJWT` call returns an error, `handleRequest`
dispatches nothing upstream and its trace is log lines followed by one final
`http.Error` with status 500; when URL parsing and request construction
succeeded that response is `"Error generating JWT"`.  In every run a dispatch
happens at most once and only after the header loop has completed, carrying
the header that loop built. -/
theorem handleRequest_signing_failure (E : Env) (r : Request) (pre post : Header)
    (vs1 vs2 : List String) (v ak sk err : String) (out0 out1 : List (String × String))
    (tick0 tick1 : Nat)
    (hdr : r.Header = pre ++ ("Authorization", vs1 ++ v :: vs2) :: post)
    (hpre : headerLoop E pre [] 0 = .ok (out0, tick0))
    (hvs1 : valuesLoop E "Authorization" vs1 out0 tick0 = .ok (out1, tick1))
    (hleg : isAuthHeaderAkSk v = true)
    (hsplit : Split (sliceFrom v 7) '|' = [ak, sk])
    (hfail : (genJWT E ak sk tick1).1 = .error err) :
    (∀ req, Event.dispatch req ∉ handleRequest E r) ∧
    (∃ logs msg, handleRequest E r = logs ++ [Event.httpError msg 500] ∧
      ∀ e ∈ logs, e.isLog = true) ∧
    (E.ParseURL r = none → E.NewRequest r.Method (targetURL E.target r) = none →
      handleRequest E r =
        [Event.log ["origin path", r.Path],
         Event.log ["Proxying request to: ", targetURL E.target r],
         Event.log ["Error generating JWT: ", err],
         Event.httpError "Error generating JWT" 500]) ∧
    (handleRequest E r).countP Event.isDispatch ≤ 1 ∧
    (∀ (E' : Env) (r' : Request) (req : ProxyRequest),
      Event.dispatch req ∈ handleRequest E' r' →
        ∃ tick, headerLoop E' r'.Header [] 0 = .ok (req.Header, tick)) := by
  have herr : headerLoop E r.Header [] 0 = .error (.jwt err) := by
    rw [hdr]
    exact headerLoop_first_failure E pre post vs1 vs2 v ak sk err out0 out1 tick0 tick1
      hpre hvs1 hleg hsplit hfail
  obtain ⟨h1, h2, h3⟩ := handleRequest_of_jwt_error E r err herr
  exact ⟨h1, h2, h3, handleRequest_dispatch_once E r,
    fun E' r' req h => dispatch_header E' r' req h⟩

/-- Witness for C9: the sample request with a signer that always fails. -/
theorem handleRequest_signing_failure_witness :
    handleRequest failingSignerEnv sampleRequest =
      [Event.log ["origin path", "/v1/api/models"],
       Event.log ["Proxying request to: ", "https://api.example.com/v1/llm/models?foo=bar"],
       Event.log ["Error generating JWT: ", "key is invalid"],
       Event.httpError "Error generating JWT" 500] ∧
    ∀ req, Event.dispatch req ∉ handleRequest failingSignerEnv sampleRequest := by
  have h := handleRequest_signing_failure failingSignerEnv sampleRequest
    [("Accept", ["text/html", "*/*"])] [] ["Bearer sometoken"] ["Bearer a|b|c"]
    "Bearer abc|xyz" "abc" "xyz" "key is invalid"
    [("Accept", "text/html"), ("Accept", "*/*")]
    [("Accept", "text/html"), ("Accept", "*/*"), ("Authorization", "Bearer sometoken")] 0 0
    (by decide) (by rfl) (by rfl) (by decide) (by decide) (by rfl)
  exact ⟨h.2.2.1 rfl rfl, h.1⟩

/-! ## Claims C10, C7 and C8: the relay loop -/

theorem relayLoop_head (E : Env) (body : List ReadResult) (k : Nat) :
    ∃ n err tail, relayLoop E body k = Event.read n err :: tail := by
  cases body with
  | nil => exact ⟨_, _, _, rfl⟩
  | cons r rest =>
    rcases relayLoop_cases E r rest k with ⟨_, h⟩ | ⟨_, _, _, _, h⟩ | ⟨_, _, h⟩ |
      ⟨_, _, _, _, _, h⟩ | ⟨_, _, _, _, h⟩ <;> exact ⟨_, _, _, h⟩

theorem relayLoop_write_size (E : Env) (body : List ReadResult) (k : Nat)
    (chunk : List UInt8) (err : Option Error)
    (hw : Event.write chunk err ∈ relayLoop E body k) :
    1 ≤ chunk.length ∧ chunk.length ≤ 1024 := by
  have hsize : relayBufSize = 1024 := rfl
  induction body generalizing k with
  | nil => simp [relayLoop] at hw
  | cons r rest ih =>
    rcases relayLoop_cases E r rest k with ⟨_, h⟩ | ⟨_, _, _, _, h⟩ | ⟨_, _, h⟩ |
      ⟨_, _, hn, hle, _, h⟩ | ⟨_, hn, hle, _, h⟩ <;> rw [h] at hw
    · simp at hw
    · simp at hw
    · simp at hw
    · simp at hw
      rw [hw.1]
      omega
    · simp only [List.mem_cons, reduceCtorEq, Event.write.injEq, false_or] at hw
      rcases hw with ⟨rfl, _⟩ | hw
      · omega
      · exact ih (k + 1) hw

theorem relayLoop_flush_after_write (E : Env) (body : List ReadResult) (k i : Nat)
    (chunk : List UInt8)
    (hw : (relayLoop E body k)[i]? = some (Event.write chunk none)) :
    (relayLoop E body k)[i + 1]? = some Event.flush ∧
      ∃ n err, (relayLoop E body k)[i + 2]? = some (Event.read n err) := by
  induction body generalizing k i with
  | nil =>
    rcases i with _ | i <;> simp [relayLoop] at hw
  | cons r rest ih =>
    rcases relayLoop_cases E r rest k with ⟨_, h⟩ | ⟨_, _, _, _, h⟩ | ⟨_, _, h⟩ |
      ⟨_, _, _, _, _, h⟩ | ⟨_, _, _, _, h⟩ <;> rw [h] at hw ⊢
    · rcases i with _ | i <;> simp at hw
    · rcases i with _ | _ | _ | i <;> simp at hw
    · rcases i with _ | _ | i <;> simp at hw
    · rcases i with _ | _ | _ | _ | i <;> simp at hw
    · rcases i with _ | _ | _ | i
      · simp at hw
      · obtain ⟨n, err, tail, ht⟩ := relayLoop_head E rest (k + 1)
        simp [ht]
      · simp at hw
      · simp only [List.getElem?_cons_succ] at hw ⊢
        exact ih (k + 1) i hw

theorem relayLoop_flush_follows_write (E : Env) (body : List ReadResult) (k i : Nat)
    (hf : (relayLoop E body k)[i]? = some Event.flush) :
    ∃ j chunk, i = j + 1 ∧ (relayLoop E body k)[j]? = some (Event.write chunk none) := by
  induction body generalizing k i with
  | nil =>
    rcases i with _ | i <;> simp [relayLoop] at hf
  | cons r rest ih =>
    rcases relayLoop_cases E r rest k with ⟨_, h⟩ | ⟨_, _, _, _, h⟩ | ⟨_, _, h⟩ |
      ⟨_, _, _, _, _, h⟩ | ⟨_, _, _, _, h⟩ <;> rw [h] at hf ⊢
    · rcases i with _ | i <;> simp at hf
    · rcases i with _ | _ | _ | i <;> simp at hf
    · rcases i with _ | _ | i <;> simp at hf
    · rcases i with _ | _ | _ | _ | i <;> simp at hf
    · rcases i with _ | _ | _ | i
      · simp at hf
      · simp at hf
      · exact ⟨1, r.data, rfl, by simp⟩
      · simp only [List.getElem?_cons_succ] at hf
        obtain ⟨j, chunk, hj, hjw⟩ := ih (k + 1) i hf
        refine ⟨j + 3, chunk, by omega, ?_⟩
        simpa only [List.getElem?_cons_succ] using hjw

theorem relayLoop_flush_between_writes (E : Env) (body : List ReadResult) (k i j : Nat)
    (c1 c2 : List UInt8) (e1 e2 : Option Error) (hij : i < j)
    (h1 : (relayLoop E body k)[i]? = some (Event.write c1 e1))
    (h2 : (relayLoop E body k)[j]? = some (Event.write c2 e2)) :
    ∃ m, i < m ∧ m < j ∧ (relayLoop E body k)[m]? = some Event.flush := by
  induction body generalizing k i j with
  | nil =>
    rcases i with _ | i <;> simp [relayLoop] at h1
  | cons r rest ih =>
    rcases relayLoop_cases E r rest k with ⟨_, h⟩ | ⟨_, _, _, _, h⟩ | ⟨_, _, h⟩ |
      ⟨_, _, _, _, _, h⟩ | ⟨_, _, _, _, h⟩ <;> rw [h] at h1 h2 ⊢
    · rcases i with _ | i <;> simp at h1
    · rcases i with _ | _ | _ | i <;> simp at h1
    · rcases i with _ | _ | i <;> simp at h1
    · rcases i with _ | _ | _ | _ | i
      · simp at h1
      · rcases j with _ | _ | _ | _ | j
        · omega
        · omega
        · simp at h2
        · simp at h2
        · simp at h2
      · simp at h1
      · simp at h1
      · simp at h1
    · rcases i with _ | _ | _ | i
      · simp at h1
      · rcases j with _ | _ | _ | j
        · omega
        · omega
        · simp at h2
        · exact ⟨2, by omega, by omega, by simp⟩
      · simp at h1
      · rcases j with _ | _ | _ | j
        · omega
        · omega
        · omega
        · simp only [List.getElem?_cons_succ] at h1 h2
          obtain ⟨m, hm1, hm2, hm3⟩ := ih (k + 1) i j (by omega) h1 h2
          refine ⟨m + 3, by omega, by omega, ?_⟩
          simpa only [List.getElem?_cons_succ] using hm3

theorem relayLoop_httpError_last (E : Env) (body : List ReadResult) (k i : Nat)
    (msg : String) (code : Nat)
    (he : (relayLoop E body k)[i]? = some (Event.httpError msg code)) :
    code = 500 ∧ (relayLoop E body k)[i + 1]? = none ∧
      ∃ j args, i = j + 1 ∧ (relayLoop E body k)[j]? = some (Event.log args) := by
  induction body generalizing k i with
  | nil =>
    rcases i with _ | i <;> simp [relayLoop] at he
  | cons r rest ih =>
    rcases relayLoop_cases E r rest k with ⟨_, h⟩ | ⟨_, _, _, _, h⟩ | ⟨_, _, h⟩ |
      ⟨_, _, _, _, _, h⟩ | ⟨_, _, _, _, h⟩ <;> rw [h] at he ⊢
    · rcases i with _ | i <;> simp at he
    · rcases i with _ | _ | _ | i
      · simp at he
      · simp at he
      · simp only [List.getElem?_cons_succ, List.getElem?_cons_zero, Option.some.injEq,
          Event.httpError.injEq] at he
        exact ⟨by rw [← he.2]; rfl, by simp, 1, _, rfl, rfl⟩
      · simp at he
    · rcases i with _ | _ | i <;> simp at he
    · rcases i with _ | _ | _ | _ | i
      · simp at he
      · simp at he
      · simp at he
      · simp only [List.getElem?_cons_succ, List.getElem?_cons_zero, Option.some.injEq,
          Event.httpError.injEq] at he
        exact ⟨by rw [← he.2]; rfl, by simp, 2, _, rfl, rfl⟩
      · simp at he
    · rcases i with _ | _ | _ | i
      · simp at he
      · simp at he
      · simp at he
      · simp only [List.getElem?_cons_succ] at he ⊢
        obtain ⟨hc, hlast, j, args, hj, hjl⟩ := ih (k + 1) i he
        refine ⟨hc, hlast, j + 3, args, by omega, ?_⟩
        simpa only [List.getElem?_cons_succ] using hjl

/-- C10, as the code has it: in every run of the relay loop, every write the
loop itself makes (`w.Write(buf[:n])`, line 162) carries between 1 and 1024
bytes, the size of the relay buffer (a read reporting more makes `buf[:n]`
panic before anything is written); every successful such write is followed at
once by a flush and then by the next read; a flush only ever follows such a
successful write; and between any two such writes there is a flush.  The
one other body write of a run is the message `http.Error` writes on the two
failure paths: it has status 500, comes right after the log line, is the last
event of the run and is not followed by a flush. -/
theorem relayLoop_write_flush (E : Env) (body : List ReadResult) (k : Nat) :
    (∀ chunk err, Event.write chunk err ∈ relayLoop E body k →
      1 ≤ chunk.length ∧ chunk.length ≤ 1024) ∧
    (∀ (i : Nat) chunk, (relayLoop E body k)[i]? = some (Event.write chunk none) →
      (relayLoop E body k)[i + 1]? = some Event.flush ∧
        ∃ n err, (relayLoop E body k)[i + 2]? = some (Event.read n err)) ∧
    (∀ i : Nat, (relayLoop E body k)[i]? = some Event.flush →
      ∃ (j : Nat) (chunk : List UInt8),
        i = j + 1 ∧ (relayLoop E body k)[j]? = some (Event.write chunk none)) ∧
    (∀ (i j : Nat) c1 e1 c2 e2, i < j →
      (relayLoop E body k)[i]? = some (Event.write c1 e1) →
      (relayLoop E body k)[j]? = some (Event.write c2 e2) →
      ∃ m : Nat, i < m ∧ m < j ∧ (relayLoop E body k)[m]? = some Event.flush) ∧
    (∀ (i : Nat) msg code, (relayLoop E body k)[i]? = some (Event.httpError msg code) →
      code = 500 ∧ (relayLoop E body k)[i + 1]? = none ∧
        ∃ (j : Nat) (args : List String),
          i = j + 1 ∧ (relayLoop E body k)[j]? = some (Event.log args)) ∧
    (∀ e ∈ relayLoop E body k, e.bodyWrite ≠ none →
      (∃ chunk err, e = Event.write chunk err) ∨ ∃ msg, e = Event.httpError msg 500) :=
  ⟨fun chunk err hw => relayLoop_write_size E body k chunk err hw,
   fun i chunk hw => relayLoop_flush_after_write E body k i chunk hw,
   fun i hf => relayLoop_flush_follows_write E body k i hf,
   fun i j c1 e1 c2 e2 hij h1 h2 =>
     relayLoop_flush_between_writes E body k i j c1 c2 e1 e2 hij h1 h2,
   fun i msg code he => relayLoop_httpError_last E body k i msg code he,
   fun e he hb => by
     cases e with
     | write chunk err => exact Or.inl ⟨chunk, err, rfl⟩
     | httpError msg code =>
       obtain ⟨i, hi⟩ := List.getElem?_of_mem he
       obtain ⟨hc, _⟩ := relayLoop_httpError_last E body k i msg code hi
       exact Or.inr ⟨msg, by rw [hc]⟩
     | _ => simp [Event.bodyWrite] at hb⟩

/-- Witness for C10: a body read in two chunks and then `(0, io.EOF)`. -/
theorem relayLoop_write_flush_witness :
    relayLoop sampleEnv [⟨[104, 101], none⟩, ⟨[121], none⟩, ⟨[], some Error.EOF⟩] 0 =
      [Event.read 2 none, Event.write [104, 101] none, Event.flush,
       Event.read 1 none, Event.write [121] none, Event.flush,
       Event.read 0 (some Error.EOF)] ∧
    ∃ m : Nat, 1 < m ∧ m < 4 ∧
      (relayLoop sampleEnv [⟨[104, 101], none⟩, ⟨[121], none⟩, ⟨[], some Error.EOF⟩] 0)[m]? =
        some Event.flush := by
  have h := relayLoop_write_flush sampleEnv
    [⟨[104, 101], none⟩, ⟨[121], none⟩, ⟨[], some Error.EOF⟩] 0
  exact ⟨by decide, h.2.2.2.1 1 4 [104, 101] none [121] none (by decide) (by decide)
    (by decide)⟩

/-- C10 fails as stated. (a) When the caller's connection is gone, the read
`("hi", nil)` gives the trace `read, write (failed), log, http.Error`: the
relay write and the write `http.Error` makes are two body writes with no flush
between them.  (b) When a read returns `"hi"` with the error `"boom"`,
`http.Error` writes `"boom\n"` to the caller and no flush follows it. -/
theorem relayLoop_write_flush_counterexample :
    relayLoop failingWriteEnv [⟨[104, 105], none⟩] 0 =
      [Event.read 2 none, Event.write [104, 105] (some (Error.other "broken pipe")),
       Event.log ["error while writing resp: ", "broken pipe"],
       Event.httpError "broken pipe" 500] ∧
    ¬ (∀ (i j : Nat) (e1 e2 : Event), i < j →
        (relayLoop failingWriteEnv [⟨[104, 105], none⟩] 0)[i]? = some e1 →
        (relayLoop failingWriteEnv [⟨[104, 105], none⟩] 0)[j]? = some e2 →
        e1.bodyWrite ≠ none → e2.bodyWrite ≠ none →
        ∃ m : Nat, i < m ∧ m < j ∧
          (relayLoop failingWriteEnv [⟨[104, 105], none⟩] 0)[m]? = some Event.flush) ∧
    relayLoop sampleEnv [⟨[104, 105], some (Error.other "boom")⟩] 0 =
      [Event.read 2 (some (Error.other "boom")),
       Event.log ["error while reading respbody: ", "boom"],
       Event.httpError "boom" 500] ∧
    (Event.httpError "boom" 500).bodyWrite = some [98, 111, 111, 109, 10] ∧
    ¬ (∀ (i : Nat) (e : Event),
        (relayLoop sampleEnv [⟨[104, 105], some (Error.other "boom")⟩] 0)[i]? = some e →
        e.bodyWrite ≠ none →
        (relayLoop sampleEnv [⟨[104, 105], some (Error.other "boom")⟩] 0)[i + 1]? =
          some Event.flush) := by
  have h1 : relayLoop failingWriteEnv [⟨[104, 105], none⟩] 0 =
      [Event.read 2 none, Event.write [104, 105] (some (Error.other "broken pipe")),
       Event.log ["error while writing resp: ", "broken pipe"],
       Event.httpError "broken pipe" 500] := by decide
  have h2 : relayLoop sampleEnv [⟨[104, 105], some (Error.other "boom")⟩] 0 =
      [Event.read 2 (some (Error.other "boom")),
       Event.log ["error while reading respbody: ", "boom"],
       Event.httpError "boom" 500] := by decide
  refine ⟨h1, ?_, h2, by decide, ?_⟩
  · intro h
    rw [h1] at h
    obtain ⟨m, hm1, hm2, hm3⟩ := h 1 3 _ _ (by decide) rfl rfl
      (by simp [Event.bodyWrite]) (by simp [Event.bodyWrite])
    have hm : m = 2 := by omega
    subst hm
    simp at hm3
  · intro h
    rw [h2] at h
    have h3 := h 2 _ rfl (by simp [Event.bodyWrite])
    simp at h3

theorem relayLoop_EOF_read (E : Env) (data : List UInt8) (rest : List ReadResult) (k : Nat) :
    relayLoop E (⟨data, some Error.EOF⟩ :: rest) k =
      [Event.read data.length (some Error.EOF)] := by
  rw [relayLoop]
  simp

theorem relayLoop_zero_read (E : Env) (err : Option Error) (rest : List ReadResult)
    (k : Nat) : relayLoop E (⟨[], err⟩ :: rest) k = [Event.read 0 err] := by
  rw [relayLoop]
  simp

/-- What the relay loop does deliver: while every read returns data (at most
a buffer of it) with a `nil` error and every write succeeds, the bytes written
are the bytes read, in order, and the loop goes on with the reads that
follow. -/
theorem relayLoop_relays_clean_reads (E : Env) (body tail : List ReadResult) (k : Nat)
    (hwrite : ∀ j d, E.Write j d = none)
    (hclean : ∀ r ∈ body, r.err = none ∧ r.data ≠ [] ∧ r.data.length ≤ relayBufSize) :
    bytesWritten (relayLoop E (body ++ tail) k) =
      wholeBody body ++ bytesWritten (relayLoop E tail (k + body.length)) := by
  induction body generalizing k with
  | nil => simp [wholeBody]
  | cons r rest ih =>
    obtain ⟨he, hd, hsz⟩ := hclean r (List.mem_cons_self _ _)
    have hrest : ∀ x ∈ rest, x.err = none ∧ x.data ≠ [] ∧ x.data.length ≤ relayBufSize :=
      fun x hx => hclean x (List.mem_cons_of_mem _ hx)
    have hlen : r.data.length ≠ 0 := by simpa using hd
    rw [List.cons_append]
    rcases relayLoop_cases E r (rest ++ tail) k with ⟨hs, _⟩ | ⟨e, h1, _⟩ | ⟨_, hbig, _⟩ |
      ⟨e, _, _, _, h1, _⟩ | ⟨_, _, _, _, h⟩
    · rcases hs with hs | hs
      · rw [he] at hs
        simp at hs
      · exact absurd hs hlen
    · rw [he] at h1
      simp at h1
    · omega
    · rw [hwrite] at h1
      simp at h1
    · rw [h]
      simp only [bytesWritten]
      rw [ih (k + 1) hrest]
      have hk : k + 1 + rest.length = k + (r :: rest).length := by
        simp only [List.length_cons]
        omega
      rw [hk]
      simp [wholeBody]

/-- The failure paths the relay loop does report: a read that returns data
together with an error other than `io.EOF`, and a failed write, are each
logged and answered with `http.Error(..., 500)`, and the loop stops. -/
theorem relayLoop_reported_failures (E : Env) (r : ReadResult) (rest : List ReadResult)
    (k : Nat) (hdata : r.data ≠ []) :
    (∀ msg, r.err = some (Error.other msg) →
      relayLoop E (r :: rest) k =
        [Event.read r.data.length r.err,
         Event.log ["error while reading respbody: ", msg],
         Event.httpError msg 500]) ∧
    (∀ err, r.err = none → r.data.length ≤ relayBufSize → E.Write k r.data = some err →
      relayLoop E (r :: rest) k =
        [Event.read r.data.length r.err,
         Event.write r.data (some err),
         Event.log ["error while writing resp: ", err.text],
         Event.httpError err.text 500]) := by
  have hlen : r.data.length ≠ 0 := by simpa using hdata
  constructor
  · intro msg he
    rw [relayLoop]
    simp [he, hdata, Error.text, StatusInternalServerError]
  · intro err he hsz hw
    have hbig : ¬ relayBufSize < r.data.length := by omega
    rw [relayLoop]
    simp [he, hw, hdata, hbig, StatusInternalServerError]

/-- C7, the code at the failing input: the upstream body `"helloworld"` read as
`("hello", nil)` then `("world", io.EOF)`, all writes succeeding, reaches the
caller as `"hello"` only; in general a read that returns `io.EOF` ends the loop
before the data returned with it is written. -/
theorem relayLoop_drops_data_read_with_EOF :
    relayLoop sampleEnv
        [⟨[104, 101, 108, 108, 111], none⟩, ⟨[119, 111, 114, 108, 100], some Error.EOF⟩] 0 =
      [Event.read 5 none, Event.write [104, 101, 108, 108, 111] none, Event.flush,
       Event.read 5 (some Error.EOF)] ∧
    bytesWritten (relayLoop sampleEnv
        [⟨[104, 101, 108, 108, 111], none⟩, ⟨[119, 111, 114, 108, 100], some Error.EOF⟩] 0) =
      [104, 101, 108, 108, 111] ∧
    wholeBody [⟨[104, 101, 108, 108, 111], none⟩, ⟨[119, 111, 114, 108, 100], some Error.EOF⟩] =
      [104, 101, 108, 108, 111, 119, 111, 114, 108, 100] ∧
    (∀ (E : Env) (data : List UInt8) (rest : List ReadResult) (k : Nat),
      relayLoop E (⟨data, some Error.EOF⟩ :: rest) k =
        [Event.read data.length (some Error.EOF)]) :=
  ⟨by decide, by decide, by decide, fun E data rest k => relayLoop_EOF_read E data rest k⟩

/-- C8, the code at the failing input: a read that fails with
`"unexpected EOF"` (not `io.EOF`) and zero bytes ends the loop with no log line
and no `http.Error`, exactly as a normal end of the body would; in general a
zero-byte read ends the loop silently whatever error comes with it. -/
theorem relayLoop_silent_on_zero_byte_read_error :
    relayLoop sampleEnv [⟨[104, 105], none⟩, ⟨[], some (Error.other "unexpected EOF")⟩] 0 =
      [Event.read 2 none, Event.write [104, 105] none, Event.flush,
       Event.read 0 (some (Error.other "unexpected EOF"))] ∧
    (∀ (E : Env) (err : Option Error) (rest : List ReadResult) (k : Nat),
      relayLoop E (⟨[], err⟩ :: rest) k = [Event.read 0 err]) :=
  ⟨by decide, fun E err rest k => relayLoop_zero_read E err rest k⟩

end OpenaiProxy
